import Mathlib

/-!
Verification of the ps_scan distributed filesystem scanner (coordinator /
worker scheduler).  The definitions below are a shallow embedding of the
Python source: `src/multinode.py` (PSScanServer, PSScanClient, main),
`src/helpers/misc.py` (merge_process_stats) and
`src/helpers/user_handlers.py` (file_handler_basic, file_handler_pscale).

Timestamps (Python `time.time()` floats) are embedded as rationals; Python
truthiness of a numeric timestamp field is `≠ 0`.  Python dictionaries keyed
by strings are embedded as association lists (first match wins, mirroring
the unique-key property of dicts).
-/

namespace PsScan

/-- Worker status values (CLIENT_STATE_* constants in multinode.py). -/
inductive ClientStatus
  | starting
  | running
  | idle
  | stopped
deriving DecidableEq, Repr

/-- Statistics snapshot: a Python dict from counter name to value.
The coordinator only ever adds values pointwise (and skips the "custom"
key), so the value type is embedded as `Int`. -/
abbrev Stats := List (String × Int)

/-- First-match lookup, the embedding of Python dict indexing. -/
def statLookup (s : Stats) (k : String) : Option Int :=
  match s with
  | [] => none
  | (k', v) :: rest => if k' = k then some v else statLookup rest k

/-- Embedding of `key in dict` for a stats snapshot. -/
def statHasKey (s : Stats) (k : String) : Bool :=
  match s with
  | [] => false
  | (k', _) :: rest => k' = k || statHasKey rest k

/-- Coordinator-side worker-state record (the `state_obj` dict created in
`PSScanServer.parse_message` on MSG_TYPE_CLIENT_CONNECT). -/
structure ClientRec where
  id : Nat
  dir_count : Nat
  sent_data : ℚ
  stats : Stats
  stats_time : Option ℚ
  status : ClientStatus
  want_data : ℚ
deriving DecidableEq, Repr

/-! ## merge_process_stats (src/helpers/misc.py lines 92-106)

`process_states` is the coordinator's worker-state table; the function
folds over its values.  A snapshot is "falsy" exactly when the dict is
empty (`if not state["stats"]`). -/

/-- One aggregation step of `merge_process_stats`: for every key of the
accumulated snapshot, if it also occurs in the other snapshot and is not
"custom", add the other snapshot's value. -/
def mergeStatsInto (acc other : Stats) : Stats :=
  acc.map (fun kv =>
    if kv.1 ≠ "custom" ∧ statHasKey other kv.1 then
      (kv.1, kv.2 + (statLookup other kv.1).getD 0)
    else kv)

/-- Embedding of `misc.merge_process_stats`: walk the worker records in
order; the first non-empty snapshot is deep-copied, later non-empty
snapshots are added in.  Returns `none` when no record has a non-empty
snapshot. -/
def merge_process_stats (process_states : List ClientRec) : Option Stats :=
  match process_states with
  | [] => none
  | state :: rest =>
    if state.stats = [] then merge_process_stats rest
    else some (rest.foldl
      (fun acc st => if st.stats = [] then acc else mergeStatsInto acc st.stats)
      state.stats)

/-! ## Coordinator message processing (PSScanServer.parse_message)

`MSG_TYPE_CLIENT_DATA` messages carry a payload whose `type` selects one of
the branches in multinode.py lines 640-681; each branch updates the fields
of the sender's worker-state record (and, for a returned directory list,
extends the global work list). -/

/-- Payload types of a MSG_TYPE_CLIENT_DATA message, as dispatched by
`PSScanServer.parse_message` (multinode.py lines 640-681). -/
inductive ClientDataMsg
  | cmdQuit
  | cmdDumpState
  | cmdToggleDebug
  | cmdUnknown
  | dirList (workItems : List String)
  | stateIdle
  | stateRunning
  | stateStopped
  | dirCount (n : Nat)
  | statusStats (s : Stats)
  | reqDirList
  | unknownType
deriving DecidableEq, Repr

/-- Embedding of the per-record effect of one MSG_TYPE_CLIENT_DATA branch of
`PSScanServer.parse_message`: returns the updated worker-state record and
the updated global work list.  The `cmd` branches and the unknown-type
branch only log or act globally; they leave the record untouched. -/
def parse_message_client_data (cur_client : ClientRec) (work_list : List String)
    (msg : ClientDataMsg) (now : ℚ) : ClientRec × List String :=
  match msg with
  | .dirList items =>
      ({ cur_client with sent_data := 0, want_data := 0 }, work_list ++ items)
  | .stateIdle =>
      ({ cur_client with status := .idle, want_data := now }, work_list)
  | .stateRunning =>
      ({ cur_client with status := .running, want_data := 0 }, work_list)
  | .stateStopped =>
      ({ cur_client with status := .stopped, want_data := 0 }, work_list)
  | .dirCount n =>
      ({ cur_client with dir_count := n }, work_list)
  | .statusStats s =>
      ({ cur_client with stats := s, stats_time := some now }, work_list)
  | .reqDirList =>
      ({ cur_client with want_data := now }, work_list)
  | _ => (cur_client, work_list)

/-- Embedding of the MSG_TYPE_CLIENT_CLOSED branch of
`PSScanServer.parse_message` (multinode.py lines 682-688): the record of the
closed client stays in `client_state`; its fields are reset and its status
set to stopped.  Records of other clients are untouched. -/
def parse_message_client_closed (client_state : List (Nat × ClientRec)) (key : Nat) :
    List (Nat × ClientRec) :=
  client_state.map (fun p =>
    if p.1 = key then
      (p.1, { p.2 with dir_count := 0, sent_data := 0, status := .stopped, want_data := 0 })
    else p)

/-- Embedding of the MSG_TYPE_CLIENT_CONNECT branch of
`PSScanServer.parse_message` (multinode.py lines 689-709): a fresh record is
added for the new key; `want_data` is the arrival time unless an initial
work item was sent (which happens exactly when the work list is non-empty),
and the first work item is consumed from the global work list. -/
def parse_message_client_connect (client_state : List (Nat × ClientRec))
    (work_list : List String) (key : Nat) (client_count : Nat) (now : ℚ) :
    List (Nat × ClientRec) × List String × Nat :=
  let client_count' := client_count + 1
  let state_obj : ClientRec :=
    { id := client_count', dir_count := 0, sent_data := 0, stats := [],
      stats_time := none, status := .starting, want_data := now }
  match work_list with
  | [] => (client_state ++ [(key, state_obj)], [], client_count')
  | _ :: rest =>
      (client_state ++ [(key, { state_obj with want_data := 0 })], rest, client_count')

/-! ## Coordinator event loop tail (PSScanServer.serve, multinode.py 824-887)

After dispatching at most one queued message, each loop iteration scans the
worker-state table, then (a) broadcasts quit when every worker is idle or
stopped and the global work list is empty, else (b) distributes the global
work list to wanting workers, then (c) solicits directories from workers
holding more than one directory.  All of that is embedded below as a pure
function from the table, the work list and the current time to the set of
messages sent and the updated state. -/

/-- Number of workers whose status is idle or stopped (the `idle_clients`
counter of the serve loop). -/
def idleClients (client_state : List (Nat × ClientRec)) : Nat :=
  (client_state.filter (fun p =>
    p.2.status = ClientStatus.idle ∨ p.2.status = ClientStatus.stopped)).length

/-- Keys of workers with a truthy `want_data` (the `want_work_clients`
list), in table order. -/
def wantWorkClients (client_state : List (Nat × ClientRec)) : List Nat :=
  (client_state.filter (fun p => p.2.want_data ≠ 0)).map (·.1)

/-- Keys of workers reporting more than one queued directory (the
`have_dirs_clients` list), in table order. -/
def haveDirsClients (client_state : List (Nat × ClientRec)) : List Nat :=
  (client_state.filter (fun p => p.2.dir_count > 1)).map (·.1)

/-- The share size of the distribution step:
`(len_dir_list // len_want_work_procs) + (1 * (len_dir_list % len_want_work_procs != 0))`. -/
def increment (len_dir_list len_want_work_procs : Nat) : Nat :=
  len_dir_list / len_want_work_procs +
    (if len_dir_list % len_want_work_procs ≠ 0 then 1 else 0)

/-- The distribution for-loop (multinode.py 863-870): walk the wanting
workers; each receives the slice `work_list[index : index + increment]`;
empty slices are skipped (and do not advance `index`).  Returns the list of
(key, share) messages sent, in order. -/
def distributeLoop (work_list : List String) (inc : Nat) :
    List Nat → Nat → List (Nat × List String)
  | [], _ => []
  | key :: rest, index =>
      let work_dirs := (work_list.drop index).take inc
      if work_dirs = [] then distributeLoop work_list inc rest index
      else (key, work_dirs) :: distributeLoop work_list inc rest (index + inc)

/-- The solicitation for-loop (multinode.py 880-887): for each worker that
has directories, if more than `request_work_interval` elapsed since
`sent_data`, send a request and stamp `sent_data := now`.  Returns the keys
solicited and the updated table. -/
def solicitLoop (now request_work_interval : ℚ) :
    List Nat → List (Nat × ClientRec) → List Nat × List (Nat × ClientRec)
  | [], client_state => ([], client_state)
  | key :: rest, client_state =>
      match client_state.find? (fun p => p.1 = key) with
      | none => solicitLoop now request_work_interval rest client_state
      | some p =>
          if now - p.2.sent_data > request_work_interval then
            let client_state' := client_state.map (fun q =>
              if q.1 = key then (q.1, { q.2 with sent_data := now }) else q)
            let (sol, cs) := solicitLoop now request_work_interval rest client_state'
            (key :: sol, cs)
          else solicitLoop now request_work_interval rest client_state

/-- Result of one pass over the tail of the serve loop: quit messages sent,
work shares sent, solicitation requests sent, and the updated table and
work list. -/
structure ServeTailResult where
  quitSent : List Nat
  workSent : List (Nat × List String)
  solicited : List Nat
  client_state : List (Nat × ClientRec)
  work_list : List String
deriving DecidableEq, Repr

/-- Embedding of multinode.py lines 824-887: the termination check,
distribution step and solicitation step of one iteration of
`PSScanServer.serve`. -/
def serveLoopTail (client_state : List (Nat × ClientRec)) (work_list : List String)
    (now request_work_interval : ℚ) : ServeTailResult :=
  let want_work_clients := wantWorkClients client_state
  let have_dirs_clients := haveDirsClients client_state
  if idleClients client_state = client_state.length ∧ work_list = [] then
    { quitSent := (client_state.filter
        (fun p => p.2.status ≠ ClientStatus.stopped)).map (·.1),
      workSent := [], solicited := [],
      client_state := client_state, work_list := work_list }
  else
    let dist :=
      if want_work_clients ≠ [] ∧ work_list ≠ [] then
        (distributeLoop work_list
          (increment work_list.length want_work_clients.length) want_work_clients 0,
         ([] : List String))
      else ([], work_list)
    let got_work_clients := dist.1.map (·.1)
    let client_state₁ := client_state.map (fun p =>
      if got_work_clients.contains p.1 then (p.1, { p.2 with want_data := 0 }) else p)
    let still_want := want_work_clients.filter (fun k => ¬ got_work_clients.contains k)
    let sol :=
      if still_want ≠ [] ∧ have_dirs_clients ≠ [] then
        solicitLoop now request_work_interval have_dirs_clients client_state₁
      else ([], client_state₁)
    { quitSent := [], workSent := dist.1, solicited := sol.1,
      client_state := sol.2, work_list := dist.2 }

/-! ## Worker-side request step (PSScanClient.connect, multinode.py 250-253)

In every pass of the client loop, after refreshing `work_list_count`, the
client sends MSG_TYPE_CLIENT_REQ_DIR_LIST when its directory queue is empty
and more than `dir_request_interval` seconds passed since `want_data`, and
then stamps `want_data := now`.  Receiving a non-empty MSG_TYPE_CLIENT_DIR_LIST
(PSScanClient.parse_message, lines 344-358) resets `want_data := 0`. -/

/-- Events affecting the client's `want_data` field: one pass of the
request-work check (with the refreshed queue size), or receipt of a
directory list from the coordinator. -/
inductive ClientEvent
  | tick (now : ℚ) (work_list_count : Nat)
  | recvDirList (now : ℚ) (work_items : List String)
deriving DecidableEq, Repr

/-- Effect of one event on `want_data`; the second component is the time of
the MSG_TYPE_CLIENT_REQ_DIR_LIST that the event caused to be sent, if any.
`tick` embeds multinode.py lines 251-253; `recvDirList` embeds the
MSG_TYPE_CLIENT_DIR_LIST branch of PSScanClient.parse_message (an empty
work-item list returns without touching any state). -/
def clientReqStep (dir_request_interval want_data : ℚ) :
    ClientEvent → ℚ × Option ℚ
  | .tick now cnt =>
      if cnt = 0 ∧ now - want_data > dir_request_interval then (now, some now)
      else (want_data, none)
  | .recvDirList _ items =>
      if items = [] then (want_data, none) else (0, none)

/-- Times of all work requests sent along a sequence of client events,
starting from a given `want_data` value. -/
def clientRequests (dir_request_interval want_data : ℚ) :
    List ClientEvent → List ℚ
  | [] => []
  | e :: rest =>
      let s := clientReqStep dir_request_interval want_data e
      match s.2 with
      | some t => t :: clientRequests dir_request_interval s.1 rest
      | none => clientRequests dir_request_interval s.1 rest

/-! ## File handlers (src/helpers/user_handlers.py)

Filesystem interaction is abstracted per input filename: each entry of the
handler's `filename_list` is paired with the outcome that the filesystem
calls of the corresponding loop iteration produce.  The outcome constructors
correspond one-to-one to the control-flow exits of the loop body. -/

/-- Outcome of one `file_handler_basic` loop iteration (lines 133-152):
`get_file_stat`/`custom_tagging` raise (FileNotFoundError or any other
exception, both counted as skipped), or the entry is a directory, or it is
a non-directory with the given sizes. -/
inductive BasicEntry
  | statErr
  | dirEntry
  | fileEntry (size size_physical : Nat)
deriving DecidableEq, Repr

/-- Return value of a file handler plus the stats counters it updates. -/
structure HandlerResult where
  processed : Nat
  skipped : Nat
  q_dirs : List String
  file_size_total : Nat
  file_size_physical_total : Nat
  resultCount : Nat
  resultDirCount : Nat
deriving DecidableEq, Repr

/-- The per-filename loop of `file_handler_basic` (lines 133-152).
`resultCount`/`resultDirCount` track `result_list`/`result_dir_list`. -/
def basicScan : List (String × BasicEntry) → HandlerResult
  | [] => ⟨0, 0, [], 0, 0, 0, 0⟩
  | (filename, e) :: rest =>
      let r := basicScan rest
      match e with
      | .statErr => { r with skipped := r.skipped + 1 }
      | .dirEntry => { r with q_dirs := filename :: r.q_dirs,
                              resultDirCount := r.resultDirCount + 1 }
      | .fileEntry sz psz =>
          { r with processed := r.processed + 1,
                   file_size_total := r.file_size_total + sz,
                   file_size_physical_total := r.file_size_physical_total + psz,
                   resultCount := r.resultCount + 1 }

/-- Outcome of one `file_handler_pscale` loop iteration (lines 234-478):
the `os.open` call may hit FileNotFoundError/ENOENT (`continue`, counted
only in custom stats), an unhandled errno (`continue` after logging), or
ENOTSUP/EACCES, which takes the `os.lstat` fallback path (whose own
exceptions are caught as skipped, and which classifies the entry as
directory or file); with a successful open, a later exception counts as
skipped, and otherwise the inode mode classifies the entry. -/
inductive PscaleEntry
  | notFound
  | openErrOther
  | fallbackErr
  | fallbackDir
  | fallbackFile (size : Nat)
  | scanErr
  | dirEntry
  | fileEntry (size size_physical : Nat)
deriving DecidableEq, Repr

/-- The per-filename loop of `file_handler_pscale`.  The fallback path
computes the physical size as `phys_block_size * ceil(size / phys_block_size)`
(line 277-279). -/
def pscaleScan (phys_block_size : Nat) : List (String × PscaleEntry) → HandlerResult
  | [] => ⟨0, 0, [], 0, 0, 0, 0⟩
  | (filename, e) :: rest =>
      let r := pscaleScan phys_block_size rest
      match e with
      | .notFound => r
      | .openErrOther => r
      | .fallbackErr => { r with skipped := r.skipped + 1 }
      | .fallbackDir => { r with q_dirs := filename :: r.q_dirs,
                                 resultDirCount := r.resultDirCount + 1 }
      | .fallbackFile sz =>
          { r with processed := r.processed + 1,
                   file_size_total := r.file_size_total + sz,
                   file_size_physical_total := r.file_size_physical_total +
                     phys_block_size * ((sz + phys_block_size - 1) / phys_block_size),
                   resultCount := r.resultCount + 1 }
      | .scanErr => { r with skipped := r.skipped + 1 }
      | .dirEntry => { r with q_dirs := filename :: r.q_dirs,
                              resultDirCount := r.resultDirCount + 1 }
      | .fileEntry sz psz =>
          { r with processed := r.processed + 1,
                   file_size_total := r.file_size_total + sz,
                   file_size_physical_total := r.file_size_physical_total + psz,
                   resultCount := r.resultCount + 1 }

/-- The sleep-and-recheck loop both handlers run after enqueuing results
(`for i in range(DEFAULT_MAX_Q_WAIT_LOOPS): ...`, lines 158-162 and
485-490).  `qsize k` is the data-queue depth observed at the k-th check
(the queue is drained concurrently, so the depth is an arbitrary function
of the check index).  Returns the indices of the iterations that slept. -/
def sendQWaitSleeps (qsize : Nat → Nat) (max_send_q_size : Nat) :
    Nat → Nat → List Nat
  | _, 0 => []
  | i, fuel + 1 =>
      if qsize i > max_send_q_size then
        i :: sendQWaitSleeps qsize max_send_q_size (i + 1) fuel
      else []

/-- Embedding of `file_handler_basic`: scan the entries, then, if anything
was enqueued and a send queue exists, run the backpressure wait loop.  The
second component records which wait-loop iterations slept
(`time.sleep(send_q_sleep)`). -/
def file_handler_basic (entries : List (String × BasicEntry))
    (es_send_q_present : Bool) (qsize : Nat → Nat)
    (max_send_q_size max_q_wait_loops : Nat) : HandlerResult × List Nat :=
  let r := basicScan entries
  let sleeps :=
    if (r.resultCount ≠ 0 ∨ r.resultDirCount ≠ 0) ∧ es_send_q_present then
      sendQWaitSleeps qsize max_send_q_size 0 max_q_wait_loops
    else []
  (r, sleeps)

/-- Embedding of `file_handler_pscale`: as `file_handler_basic` but with the
pscale entry outcomes; the wait loop runs when results exist and
`client_config` names an Elasticsearch command index. -/
def file_handler_pscale (phys_block_size : Nat)
    (entries : List (String × PscaleEntry)) (es_cmd_idx_present : Bool)
    (qsize : Nat → Nat) (max_send_q_size max_q_wait_loops : Nat) :
    HandlerResult × List Nat :=
  let r := pscaleScan phys_block_size entries
  let sleeps :=
    if (r.resultCount ≠ 0 ∨ r.resultDirCount ≠ 0) ∧ es_cmd_idx_present then
      sendQWaitSleeps qsize max_send_q_size 0 max_q_wait_loops
    else []
  (r, sleeps)

/-! ## CLI validation and exit codes (multinode.py main and read_es_cred_file) -/

/-- The `--op` operation modes accepted by main (multinode.py 929, 969-995). -/
inductive OperationMode
  | serverMode
  | clientMode
  | commandMode
  | autoMode
deriving DecidableEq, Repr

/-- The `--type` scan types (multinode.py 947-957). -/
inductive ScanType
  | autoScan
  | basicScan
  | onefsScan
deriving DecidableEq, Repr

/-- Embedding of the validation prefix of `main` (multinode.py 928-957)
together with `read_es_cred_file` (906-920): returns `some code` when the
program calls `sys.exit(code)` during validation, `none` when execution
proceeds past all validation checks.  In order: a missing scan path in
server/auto mode exits 1; an unreadable credentials file (read only when
one was named) exits 3; the auto scan type resolves by platform; an
explicit OneFS scan type on a non-OneFS system exits 2. -/
def mainValidationExit (num_scan_paths : Nat) (op : OperationMode)
    (scan_type : ScanType) (es_cred_file_given es_cred_file_readable
    is_onefs_os : Bool) : Option Nat :=
  if num_scan_paths = 0 ∧ (op = .autoMode ∨ op = .serverMode) then some 1
  else if es_cred_file_given ∧ ¬ es_cred_file_readable then some 3
  else
    let resolved := if scan_type = .autoScan then
        (if is_onefs_os then ScanType.onefsScan else ScanType.basicScan)
      else scan_type
    if resolved = .onefsScan ∧ ¬ is_onefs_os then some 2
    else none

/-! ## Helper lemmas -/

/-- A filter keeps every element iff the predicate holds on all of them. -/
theorem length_filter_eq_iff {α : Type} (p : α → Bool) (l : List α) :
    (l.filter p).length = l.length ↔ ∀ a ∈ l, p a = true := by
  induction l with
  | nil => simp
  | cons a l ih =>
    by_cases h : p a = true
    · simp [List.filter_cons, h, ih]
    · simp only [List.filter_cons, h, Bool.false_eq_true, if_false, List.length_cons]
      constructor
      · intro hlen
        exact absurd hlen (Nat.ne_of_lt (Nat.lt_succ_of_le (List.length_filter_le p l)))
      · intro hall
        exact absurd (hall a (List.mem_cons_self a l)) h

/-- `statHasKey` agrees with `statLookup` being defined. -/
theorem statHasKey_iff_lookup (s : Stats) (k : String) :
    statHasKey s k = true ↔ (statLookup s k).isSome := by
  induction s with
  | nil => simp [statHasKey, statLookup]
  | cons kv rest ih =>
    by_cases h : kv.1 = k <;> simp [statHasKey, statLookup, h, ih]

/-- A key missing from a snapshot looks up to `none`. -/
theorem statLookup_eq_none_of_not_hasKey (s : Stats) (k : String)
    (h : statHasKey s k = false) : statLookup s k = none := by
  cases hl : statLookup s k with
  | none => rfl
  | some v =>
    have := (statHasKey_iff_lookup s k).mpr (by simp [hl])
    simp [this] at h

/-- Value of a counter in a snapshot, defaulting to 0 when the key is
absent (so that summing over all snapshots matches summing over those that
contain the key). -/
def statVal (s : Stats) (k : String) : Int := (statLookup s k).getD 0

/-- Lookup after one aggregation step: keys of the accumulator are
preserved; a non-"custom" key also present in the other snapshot receives
the other snapshot's value added in. -/
theorem statLookup_mergeStatsInto (acc other : Stats) (k : String) :
    statLookup (mergeStatsInto acc other) k =
      (statLookup acc k).map (fun v =>
        if k ≠ "custom" ∧ statHasKey other k then v + statVal other k else v) := by
  induction acc with
  | nil => simp [mergeStatsInto, statLookup]
  | cons kv rest ih =>
    simp only [mergeStatsInto, List.map_cons] at ih ⊢
    by_cases hc : kv.1 ≠ "custom" ∧ statHasKey other kv.1
    · rw [if_pos hc]
      by_cases h : kv.1 = k
      · subst h
        simp [statLookup, hc, statVal]
      · simp [statLookup, h, ih]
    · rw [if_neg hc]
      by_cases h : kv.1 = k
      · subst h
        simp [statLookup, hc]
      · simp [statLookup, h, ih]

/-- Lookup of a non-"custom" key through the aggregation fold of
`merge_process_stats`: the accumulated value gains the sum of the key's
values over the remaining snapshots (with 0 for snapshots missing it). -/
theorem statLookup_mergeFold (rest : List ClientRec) (acc : Stats) (k : String)
    (hk : k ≠ "custom") :
    statLookup (rest.foldl
        (fun a st => if st.stats = [] then a else mergeStatsInto a st.stats) acc) k
      = (statLookup acc k).map
          (fun v => v + (rest.map (fun c => statVal c.stats k)).sum) := by
  induction rest generalizing acc with
  | nil =>
    cases hl : statLookup acc k <;> simp [hl]
  | cons st rest ih =>
    rw [List.foldl_cons, ih]
    by_cases hst : st.stats = []
    · simp only [hst, if_true]
      have h0 : statVal st.stats k = 0 := by simp [hst, statVal, statLookup]
      cases hl : statLookup acc k <;> simp [hl, h0]
    · simp only [hst, if_false]
      rw [statLookup_mergeStatsInto]
      by_cases hkey : statHasKey st.stats k
      · cases hl : statLookup acc k <;> simp [hl, hk, hkey, Int.add_assoc]
      · have h0 : statVal st.stats k = 0 := by
          simp [statVal,
            statLookup_eq_none_of_not_hasKey st.stats k (by simpa using hkey)]
        cases hl : statLookup acc k <;> simp [hl, hkey, h0]

/-- Lookup of "custom" through the aggregation fold: never modified. -/
theorem statLookup_mergeFold_custom (rest : List ClientRec) (acc : Stats) :
    statLookup (rest.foldl
        (fun a st => if st.stats = [] then a else mergeStatsInto a st.stats) acc) "custom"
      = statLookup acc "custom" := by
  induction rest generalizing acc with
  | nil => rfl
  | cons st rest ih =>
    rw [List.foldl_cons, ih]
    by_cases hst : st.stats = []
    · simp [hst]
    · simp only [hst, if_false]
      rw [statLookup_mergeStatsInto]
      cases statLookup acc "custom" <;> simp

/-- `merge_process_stats` on a table whose leading records all carry empty
snapshots and whose first non-empty snapshot is `c₀.stats` reduces to the
fold over the remaining records started from `c₀.stats`. -/
theorem merge_process_stats_decompose (pre : List ClientRec) (c₀ : ClientRec)
    (rest : List ClientRec) (hpre : ∀ c ∈ pre, c.stats = []) (h₀ : c₀.stats ≠ []) :
    merge_process_stats (pre ++ c₀ :: rest) =
      some (rest.foldl
        (fun a st => if st.stats = [] then a else mergeStatsInto a st.stats) c₀.stats) := by
  induction pre with
  | nil => simp [merge_process_stats, h₀]
  | cons p pre ih =>
    have hp : p.stats = [] := hpre p (List.mem_cons_self p pre)
    simp only [List.cons_append, merge_process_stats, hp, if_true]
    exact ih (fun c hc => hpre c (List.mem_cons_of_mem p hc))

/-- A record with an empty snapshot contributes 0 to every counter sum. -/
theorem statVal_empty (k : String) : statVal ([] : Stats) k = 0 := rfl

/-- C10: merge_process_stats returns None when no client state contains a
non-empty stats snapshot; otherwise, for every key other than "custom"
present in the first contributing client's snapshot, the result maps that
key to the sum of its values over all clients whose snapshot contains the
key (snapshots missing the key contribute 0, so the sum ranges over the
whole table), keys absent from the first contributing snapshot do not
appear in the result, and the "custom" entry is taken unchanged from the
first contributing snapshot. -/
theorem C10_merge_process_stats (pre rest : List ClientRec) (c₀ : ClientRec) :
    ((∀ c ∈ pre, c.stats = []) → merge_process_stats pre = none)
    ∧ ((∀ c ∈ pre, c.stats = []) → c₀.stats ≠ [] →
        ∃ R, merge_process_stats (pre ++ c₀ :: rest) = some R
          ∧ (∀ k, k ≠ "custom" → statHasKey c₀.stats k = true →
              statLookup R k =
                some (((pre ++ c₀ :: rest).map (fun c => statVal c.stats k)).sum))
          ∧ (∀ k, statHasKey c₀.stats k = false → statLookup R k = none)
          ∧ statLookup R "custom" = statLookup c₀.stats "custom") := by
  constructor
  · intro hall
    induction pre with
    | nil => rfl
    | cons p pre ih =>
      have hp : p.stats = [] := hall p (List.mem_cons_self p pre)
      simp only [merge_process_stats, hp, if_true]
      exact ih (fun c hc => hall c (List.mem_cons_of_mem p hc))
  · intro hpre h₀
    refine ⟨_, merge_process_stats_decompose pre c₀ rest hpre h₀, ?_, ?_, ?_⟩
    · intro k hk hkey
      rw [statLookup_mergeFold rest c₀.stats k hk]
      obtain ⟨v, hv⟩ := Option.isSome_iff_exists.mp ((statHasKey_iff_lookup _ _).mp hkey)
      have hpre0 : ((pre.map (fun c => statVal c.stats k))).sum = 0 := by
        rw [List.sum_eq_zero]
        intro x hx
        obtain ⟨c, hc, hcx⟩ := List.mem_map.mp hx
        rw [← hcx, hpre c hc, statVal_empty]
      rw [List.map_append, List.sum_append, hpre0, List.map_cons, List.sum_cons, hv]
      simp [statVal, hv]
    · intro k hkey
      by_cases hk : k = "custom"
      · subst hk
        rw [statLookup_mergeFold_custom,
          statLookup_eq_none_of_not_hasKey _ _ hkey]
      · rw [statLookup_mergeFold rest c₀.stats k hk,
          statLookup_eq_none_of_not_hasKey _ _ hkey]
        rfl
    · exact statLookup_mergeFold_custom rest c₀.stats

/-- A worker-state record template for concrete instances. -/
def sampleRec (s : Stats) : ClientRec :=
  { id := 1, dir_count := 0, sent_data := 0, stats := s, stats_time := none,
    status := .running, want_data := 0 }

/-- Witness for C10 at a concrete table: two contributing snapshots; the
shared counter is summed, the key missing from the first snapshot is
dropped, and "custom" comes from the first snapshot. -/
theorem C10_merge_process_stats_witness :
    ∃ R, merge_process_stats
        [sampleRec [("files_processed", 2), ("custom", 7)],
         sampleRec [("files_processed", 3), ("dirs_processed", 1)]] = some R
      ∧ (∀ k, k ≠ "custom" →
          statHasKey [(("files_processed", 2) : String × Int), ("custom", 7)] k = true →
          statLookup R k =
            some ((([sampleRec [("files_processed", 2), ("custom", 7)],
                sampleRec [("files_processed", 3), ("dirs_processed", 1)]].map
                  (fun c => statVal c.stats k))).sum))
      ∧ (∀ k, statHasKey [(("files_processed", 2) : String × Int), ("custom", 7)] k = false →
          statLookup R k = none)
      ∧ statLookup R "custom" =
          statLookup [(("files_processed", 2) : String × Int), ("custom", 7)] "custom" := by
  have h := (C10_merge_process_stats []
    [sampleRec [("files_processed", 3), ("dirs_processed", 1)]]
    (sampleRec [("files_processed", 2), ("custom", 7)])).2
    (by intro c hc; simp at hc) (by simp [sampleRec])
  simpa [sampleRec] using h

/-- C9: Validation exit codes of main.  A missing scan path in server or
auto mode exits with code 1 (the first check).  With the scan-path check
passed, a named but unreadable Elasticsearch credentials file exits with
code 3 (`read_es_cred_file`).  With both earlier checks passed, an explicit
OneFS scan type on a non-OneFS operating system exits with code 2. -/
theorem C9_validation_exit_codes (num_scan_paths : Nat) (op : OperationMode)
    (scan_type : ScanType) (given readable onefs : Bool) :
    (num_scan_paths = 0 ∧ (op = .autoMode ∨ op = .serverMode) →
      mainValidationExit num_scan_paths op scan_type given readable onefs = some 1)
    ∧ (¬ (num_scan_paths = 0 ∧ (op = .autoMode ∨ op = .serverMode)) →
        given = true → readable = false →
        mainValidationExit num_scan_paths op scan_type given readable onefs = some 3)
    ∧ (¬ (num_scan_paths = 0 ∧ (op = .autoMode ∨ op = .serverMode)) →
        ¬ (given = true ∧ readable = false) →
        scan_type = .onefsScan → onefs = false →
        mainValidationExit num_scan_paths op scan_type given readable onefs = some 2) := by
  refine ⟨fun h => ?_, fun h hg hr => ?_, fun h hcred hs ho => ?_⟩
  · simp [mainValidationExit, h]
  · simp [mainValidationExit, h, hg, hr]
  · have hok : ¬ (given = true ∧ ¬ readable = true) := by
      intro ⟨h1, h2⟩
      exact hcred ⟨h1, by simpa using h2⟩
    subst hs
    subst ho
    simp only [mainValidationExit, h, if_false, hok, if_neg]
    simp

/-- Witness for C9: each of the three exit paths at a concrete command
line. -/
theorem C9_validation_exit_codes_witness :
    mainValidationExit 0 .serverMode .basicScan false true true = some 1
    ∧ mainValidationExit 1 .serverMode .basicScan true false true = some 3
    ∧ mainValidationExit 1 .serverMode .onefsScan false true false = some 2 := by
  refine ⟨?_, ?_, ?_⟩
  · exact (C9_validation_exit_codes 0 .serverMode .basicScan false true true).1
      (by simp)
  · exact (C9_validation_exit_codes 1 .serverMode .basicScan true false true).2.1
      (by simp) rfl rfl
  · exact (C9_validation_exit_codes 1 .serverMode .onefsScan false true false).2.2
      (by simp) (by simp) rfl rfl

/-- Loop-body exits of `file_handler_basic` that the handler classifies and
counts as a non-directory: a processed file, or an entry whose metadata
call raised (counted skipped, never classified as a directory). -/
def basicSawNonDir : BasicEntry → Bool
  | .statErr => true
  | .dirEntry => false
  | .fileEntry _ _ => true

/-- Loop-body exits of `file_handler_pscale` that the handler classifies
and counts as a non-directory: processed files (main or lstat-fallback
path) and entries whose processing raised after `os.open` succeeded or in
the lstat fallback (counted skipped).  The iterations that `continue`
without touching the counters — FileNotFoundError/ENOENT on open and
unhandled open errnos — never present a classified entry to the handler,
and directory classifications are excluded. -/
def pscaleSawNonDir : PscaleEntry → Bool
  | .notFound => false
  | .openErrOther => false
  | .fallbackErr => true
  | .fallbackDir => false
  | .fallbackFile _ => true
  | .scanErr => true
  | .dirEntry => false
  | .fileEntry _ _ => true

/-- C6: For both file handlers, the returned processed count plus the
returned skipped count equals the number of entries of the input list that
the handler saw and did not classify as a directory: every such filename is
counted exactly once as processed or skipped. -/
theorem C6_processed_plus_skipped (bentries : List (String × BasicEntry))
    (pentries : List (String × PscaleEntry)) (phys_block_size : Nat) :
    (basicScan bentries).processed + (basicScan bentries).skipped
        = (bentries.filter (fun p => basicSawNonDir p.2)).length
    ∧ (pscaleScan phys_block_size pentries).processed
        + (pscaleScan phys_block_size pentries).skipped
        = (pentries.filter (fun p => pscaleSawNonDir p.2)).length := by
  constructor
  · induction bentries with
    | nil => rfl
    | cons e rest ih =>
      cases h : e.2 <;>
        simp [basicScan, List.filter_cons, basicSawNonDir, h] at ih ⊢ <;> omega
  · induction pentries with
    | nil => rfl
    | cons e rest ih =>
      cases h : e.2 <;>
        simp [pscaleScan, List.filter_cons, pscaleSawNonDir, h] at ih ⊢ <;> omega

/-- Sleep indices of the backpressure loop observed from any start index:
an iteration index is reported exactly when it is within the loop bound
and every check up to and including it saw a queue deeper than the
threshold. -/
theorem sendQWaitSleeps_mem (qsize : Nat → Nat) (maxq : Nat) (s fuel i : Nat) :
    i ∈ sendQWaitSleeps qsize maxq s fuel ↔
      s ≤ i ∧ i < s + fuel ∧ ∀ j, s ≤ j → j ≤ i → qsize j > maxq := by
  induction fuel generalizing s with
  | zero => simp [sendQWaitSleeps]; omega
  | succ fuel ih =>
    simp only [sendQWaitSleeps]
    by_cases hq : qsize s > maxq
    · simp only [if_pos hq, List.mem_cons, ih]
      constructor
      · rintro (rfl | ⟨h1, h2, h3⟩)
        · exact ⟨le_refl i, by omega, fun j hj hji => by
            have : j = i := le_antisymm hji hj
            subst this
            exact hq⟩
        · exact ⟨by omega, by omega, fun j hj hji => by
            rcases Nat.eq_or_lt_of_le hj with rfl | hlt
            · exact hq
            · exact h3 j hlt hji⟩
      · rintro ⟨h1, h2, h3⟩
        rcases Nat.eq_or_lt_of_le h1 with rfl | hlt
        · exact Or.inl rfl
        · exact Or.inr ⟨hlt, by omega, fun j hj hji => h3 j (by omega) hji⟩
    · simp only [if_neg hq, List.not_mem_nil, false_iff]
      rintro ⟨h1, h2, h3⟩
      exact hq (h3 s (le_refl s) h1)

/-- The backpressure loop runs at most `fuel` iterations. -/
theorem sendQWaitSleeps_length_le (qsize : Nat → Nat) (maxq : Nat) (s fuel : Nat) :
    (sendQWaitSleeps qsize maxq s fuel).length ≤ fuel := by
  induction fuel generalizing s with
  | zero => simp [sendQWaitSleeps]
  | succ fuel ih =>
    simp only [sendQWaitSleeps]
    by_cases hq : qsize s > maxq
    · simpa [if_pos hq] using Nat.succ_le_succ (ih (s + 1))
    · simp [if_neg hq]

/-- C8: After enqueuing its result batches, each file handler performs at
most `max_q_wait_loops` sleep-and-recheck iterations; an executed iteration
sleeps exactly when the observed data-queue size exceeds `max_send_q_size`
(so check k sleeps iff it is within the bound and every check up to it saw
a saturated queue); and the handler's returned result is the loop-scan
result regardless of the queue depths. -/
theorem C8_backpressure_bounded (qsize : Nat → Nat)
    (max_send_q_size max_q_wait_loops : Nat)
    (bentries : List (String × BasicEntry)) (bq : Bool)
    (pentries : List (String × PscaleEntry)) (phys_block_size : Nat) (pq : Bool) :
    (file_handler_basic bentries bq qsize max_send_q_size max_q_wait_loops).2.length
        ≤ max_q_wait_loops
    ∧ (file_handler_pscale phys_block_size pentries pq qsize max_send_q_size
        max_q_wait_loops).2.length ≤ max_q_wait_loops
    ∧ (∀ i, i ∈ sendQWaitSleeps qsize max_send_q_size 0 max_q_wait_loops ↔
        i < max_q_wait_loops ∧ ∀ j ≤ i, qsize j > max_send_q_size)
    ∧ (file_handler_basic bentries bq qsize max_send_q_size max_q_wait_loops).1
        = basicScan bentries
    ∧ (file_handler_pscale phys_block_size pentries pq qsize max_send_q_size
        max_q_wait_loops).1 = pscaleScan phys_block_size pentries := by
  refine ⟨?_, ?_, ?_, rfl, rfl⟩
  · by_cases hb : ((basicScan bentries).resultCount ≠ 0
        ∨ (basicScan bentries).resultDirCount ≠ 0) ∧ bq
    · simpa [file_handler_basic, hb] using
        sendQWaitSleeps_length_le qsize max_send_q_size 0 max_q_wait_loops
    · simp [file_handler_basic, hb]
  · by_cases hp : ((pscaleScan phys_block_size pentries).resultCount ≠ 0
        ∨ (pscaleScan phys_block_size pentries).resultDirCount ≠ 0) ∧ pq
    · simpa [file_handler_pscale, hp] using
        sendQWaitSleeps_length_le qsize max_send_q_size 0 max_q_wait_loops
    · simp [file_handler_pscale, hp]
  · intro i
    rw [sendQWaitSleeps_mem]
    constructor
    · rintro ⟨_, h2, h3⟩
      exact ⟨by omega, fun j hj => h3 j (Nat.zero_le j) hj⟩
    · rintro ⟨h1, h2⟩
      exact ⟨Nat.zero_le i, by omega, fun j _ hj => h2 j hj⟩

/-- C7 counterexample: successive work requests need not be more than
`dir_request_interval` apart, because receiving a directory list resets
`want_data` to 0 (PSScanClient.parse_message, line 350).  With interval 5:
a request goes out at time 10 (queue empty, 10 - 0 > 5); a directory list
arrives at time 11 and resets `want_data` to 0; at time 12 the queue is
empty again and 12 - 0 > 5, so a second request goes out — only 2 seconds
after the first. -/
theorem C7_counterexample :
    clientRequests 5 0
        [ClientEvent.tick 10 0, ClientEvent.recvDirList 11 ["d"],
         ClientEvent.tick 12 0] = [10, 12]
    ∧ ¬ ((12 : ℚ) - 10 > 5) := by
  constructor
  · norm_num [clientRequests, clientReqStep]
  · norm_num

/-- C7 (amended): the worker sends a work request exactly when its
directory-queue count is zero and more than `dir_request_interval` elapsed
since `want_data`, and sending stamps `want_data` with the current time;
consequently, starting from a request sent at time t₁, the next request is
more than `dir_request_interval` later provided no non-empty directory
list is received in between (such a receipt resets `want_data` to 0 and
voids the spacing guarantee). -/
theorem C7_request_rate (dir_request_interval want_data now t₁ : ℚ) (cnt : Nat)
    (events : List ClientEvent)
    (hno : ∀ e ∈ events, ∀ t items, e = ClientEvent.recvDirList t items → items = []) :
    ((clientReqStep dir_request_interval want_data (.tick now cnt)).2 = some now
        ↔ cnt = 0 ∧ now - want_data > dir_request_interval)
    ∧ (cnt = 0 ∧ now - want_data > dir_request_interval →
        (clientReqStep dir_request_interval want_data (.tick now cnt)).1 = now)
    ∧ (∀ t₂, (clientRequests dir_request_interval t₁ events).head? = some t₂ →
        t₂ - t₁ > dir_request_interval) := by
  refine ⟨?_, ?_, ?_⟩
  · by_cases h : cnt = 0 ∧ now - want_data > dir_request_interval
    · simp [clientReqStep, h]
    · simp [clientReqStep, h]
  · intro h
    simp [clientReqStep, h]
  · induction events with
    | nil => intro t₂ ht; simp [clientRequests] at ht
    | cons e rest ih =>
      intro t₂ ht
      have hrest : ∀ e' ∈ rest, ∀ t items, e' = ClientEvent.recvDirList t items →
          items = [] := fun e' he' => hno e' (List.mem_cons_of_mem e he')
      cases e with
      | tick tn tc =>
        by_cases h : tc = 0 ∧ tn - t₁ > dir_request_interval
        · simp only [clientRequests, clientReqStep, if_pos h] at ht
          simp at ht
          subst ht
          exact h.2
        · simp only [clientRequests, clientReqStep, if_neg h] at ht
          exact ih hrest t₂ ht
      | recvDirList tn items =>
        have : items = [] := hno _ (List.mem_cons_self _ _) tn items rfl
        subst this
        simp only [clientRequests, clientReqStep, if_pos rfl] at ht
        exact ih hrest t₂ ht

/-- Witness for C7 (amended): with interval 5 and a request just sent at
time 10, the next request over an interference-free trace goes out at time
16, more than 5 seconds later. -/
theorem C7_request_rate_witness :
    (clientRequests 5 10 [ClientEvent.tick 16 0]).head? = some 16
    ∧ (16 : ℚ) - 10 > 5 := by
  have h16 : (clientRequests 5 10 [ClientEvent.tick 16 0]).head? = some 16 := by
    norm_num [clientRequests, clientReqStep]
  exact ⟨h16, (C7_request_rate 5 10 16 10 0 [ClientEvent.tick 16 0]
    (by simp)).2.2 16 h16⟩

/-- C4 counterexample: the invariant "status = running implies
want_data = 0" is not preserved by every message type.  A running worker
whose record satisfies the invariant sends MSG_TYPE_CLIENT_REQ_DIR_LIST
(which the worker does while still in the running state, as soon as its
local queue drains); the coordinator stamps `want_data := now` without
changing the status, leaving a running record with non-zero want_data. -/
theorem C4_counterexample :
    (sampleRec []).status = ClientStatus.running
    ∧ (sampleRec []).want_data = 0
    ∧ (parse_message_client_data (sampleRec []) [] ClientDataMsg.reqDirList 5).1.status
        = ClientStatus.running
    ∧ (parse_message_client_data (sampleRec []) [] ClientDataMsg.reqDirList 5).1.want_data
        ≠ 0 := by
  refine ⟨rfl, rfl, rfl, ?_⟩
  simp [parse_message_client_data, sampleRec]

/-- C4 (amended): for every worker-state record satisfying "status =
running implies want_data = 0", processing any MSG_TYPE_CLIENT_DATA payload
other than MSG_TYPE_CLIENT_REQ_DIR_LIST preserves the invariant, as does
the MSG_TYPE_CLIENT_CLOSED table update; MSG_TYPE_CLIENT_REQ_DIR_LIST
instead sets want_data to the (non-zero) arrival time while leaving the
status unchanged, so it can violate the invariant for a running worker. -/
theorem C4_running_invariant (r : ClientRec) (wl : List String)
    (m : ClientDataMsg) (now : ℚ) (tbl : List (Nat × ClientRec)) (key : Nat)
    (hm : m ≠ ClientDataMsg.reqDirList)
    (hr : r.status = ClientStatus.running → r.want_data = 0)
    (htbl : ∀ p ∈ tbl, p.2.status = ClientStatus.running → p.2.want_data = 0) :
    ((parse_message_client_data r wl m now).1.status = ClientStatus.running →
      (parse_message_client_data r wl m now).1.want_data = 0)
    ∧ (∀ p ∈ parse_message_client_closed tbl key,
        p.2.status = ClientStatus.running → p.2.want_data = 0)
    ∧ (parse_message_client_data r wl ClientDataMsg.reqDirList now).1.status = r.status
    ∧ (parse_message_client_data r wl ClientDataMsg.reqDirList now).1.want_data = now := by
  refine ⟨?_, ?_, rfl, rfl⟩
  · cases m <;> simp_all [parse_message_client_data]
  · intro p hp
    obtain ⟨q, hq, hqe⟩ := List.mem_map.mp hp
    by_cases hk : q.1 = key
    · rw [← hqe]
      simp [hk]
    · rw [← hqe]
      simp only [hk, if_false]
      exact htbl q hq

/-- Witness for C4 (amended) at a concrete record and table: a running
record receiving MSG_TYPE_CLIENT_STATE_IDLE ends up with non-running
status, and the closed-table update keeps the invariant. -/
theorem C4_running_invariant_witness :
    ((parse_message_client_data (sampleRec []) [] ClientDataMsg.stateRunning 5).1.status
        = ClientStatus.running →
      (parse_message_client_data (sampleRec []) [] ClientDataMsg.stateRunning 5).1.want_data
        = 0)
    ∧ (∀ p ∈ parse_message_client_closed [(0, sampleRec [])] 0,
        p.2.status = ClientStatus.running → p.2.want_data = 0) := by
  have h := C4_running_invariant (sampleRec []) [] ClientDataMsg.stateRunning 5
    [(0, sampleRec [])] 0 (by simp) (fun _ => rfl)
    (by intro p hp; simp at hp; simp [hp, sampleRec])
  exact ⟨h.1, h.2.1⟩

/-- C5 counterexample: processing a client_closed event does not remove the
worker's record from `client_state`.  On a table holding exactly the closed
worker's record, the record is still present afterwards (with status
stopped), so the table does not hold "none for the closed one". -/
theorem C5_counterexample :
    (parse_message_client_closed [(0, sampleRec [])] 0).map (·.1) = [0]
    ∧ (parse_message_client_closed [(0, sampleRec [])] 0).find? (fun p => p.1 = 0)
        = some (0, { id := 1, dir_count := 0, sent_data := 0, stats := [],
                     stats_time := none, status := ClientStatus.stopped,
                     want_data := 0 }) := by
  constructor
  · rfl
  · rfl

/-- C5 (amended): processing a client_closed event retains the worker's
record in the coordinator's worker-state table: the table's keys are
unchanged, the closed worker's record is reset (status stopped, dir_count,
sent_data and want_data zeroed, id and stats kept), and every other record
is untouched.  (The transport-level connection object is removed by
`handler_client_command` via `_remove_client`, but the worker-state table
keeps one record per ever-connected worker.) -/
theorem C5_closed_retains_record (tbl : List (Nat × ClientRec)) (key : Nat) :
    (parse_message_client_closed tbl key).map (·.1) = tbl.map (·.1)
    ∧ (∀ p ∈ parse_message_client_closed tbl key,
        (p.1 = key → p.2.status = ClientStatus.stopped ∧ p.2.want_data = 0
          ∧ p.2.dir_count = 0 ∧ p.2.sent_data = 0)
        ∧ (p.1 ≠ key → p ∈ tbl)) := by
  constructor
  · rw [parse_message_client_closed, List.map_map]
    apply List.map_congr_left
    intro p _
    by_cases hk : p.1 = key <;> simp [hk]
  · intro p hp
    obtain ⟨q, hq, hqe⟩ := List.mem_map.mp hp
    constructor
    · intro hk
      by_cases hqk : q.1 = key
      · rw [← hqe]
        simp [hqk]
      · rw [← hqe] at hk
        simp [hqk] at hk
    · intro hk
      by_cases hqk : q.1 = key
      · rw [← hqe] at hk
        simp [hqk] at hk
      · rw [← hqe]
        simpa [hqk] using hq

/-- Witness for C5 (amended) at a two-record table: closing worker 0 keeps
both keys, resets worker 0's record to stopped, and leaves worker 1's
record in the table unchanged. -/
theorem C5_closed_retains_record_witness :
    (parse_message_client_closed [(0, sampleRec []), (1, sampleRec [])] 0).map (·.1)
        = [0, 1]
    ∧ ((1, sampleRec []) ∈
        parse_message_client_closed [(0, sampleRec []), (1, sampleRec [])] 0 →
        ((1 : Nat) ≠ 0 →
          (1, sampleRec []) ∈ [(0, sampleRec []), (1, sampleRec [])])) := by
  have h := C5_closed_retains_record [(0, sampleRec []), (1, sampleRec [])] 0
  exact ⟨h.1, fun hmem h1 => (h.2 (1, sampleRec []) hmem).2 h1⟩

/-! ## Lemmas about the serve-loop tail -/

/-- The `idle_clients == len(client_keys)` comparison of the serve loop is
equivalent to every tracked worker being idle or stopped. -/
theorem idleClients_eq_length_iff (cs : List (Nat × ClientRec)) :
    idleClients cs = cs.length ↔
      ∀ p ∈ cs, p.2.status = ClientStatus.idle ∨ p.2.status = ClientStatus.stopped := by
  rw [idleClients, length_filter_eq_iff]
  constructor
  · intro h p hp
    simpa using h p hp
  · intro h p hp
    simpa using h p hp

/-- The serve loop's share size equals the ceiling of `D / W`. -/
theorem increment_eq_ceil (D W : Nat) (hW : 1 ≤ W) :
    increment D W = (D + W - 1) / W := by
  have hqr := Nat.div_add_mod D W
  by_cases hr : D % W = 0
  · have h1 : D + W - 1 = (W - 1) + W * (D / W) := by omega
    rw [increment, if_neg (by simp [hr]), h1,
      Nat.add_mul_div_left _ _ (by omega : 0 < W),
      Nat.div_eq_of_lt (by omega : W - 1 < W)]
    omega
  · have hlt : D % W < W := Nat.mod_lt D (by omega)
    have h1 : D + W - 1 = (D % W - 1) + W * (D / W + 1) := by
      have h2 : W * (D / W + 1) = W * (D / W) + W := by ring
      omega
    rw [increment, if_pos (by simpa using hr), h1,
      Nat.add_mul_div_left _ _ (by omega : 0 < W),
      Nat.div_eq_of_lt (by omega : D % W - 1 < W)]
    omega

/-- `W` shares of size `increment D W` cover all `D` directories. -/
theorem le_mul_increment (D W : Nat) (hW : 1 ≤ W) : D ≤ W * increment D W := by
  have hqr := Nat.div_add_mod D W
  by_cases hr : D % W = 0
  · rw [increment, if_neg (by simp [hr]), Nat.add_zero]
    omega
  · have hlt : D % W < W := Nat.mod_lt D (by omega)
    rw [increment, if_pos (by simpa using hr)]
    have h2 : W * (D / W + 1) = W * (D / W) + W := by ring
    omega

/-- With work to hand out the share size is positive. -/
theorem one_le_increment (D W : Nat) (hD : 1 ≤ D) : 1 ≤ increment D W := by
  by_cases hr : D % W = 0
  · rw [increment, if_neg (by simp [hr]), Nat.add_zero]
    rcases Nat.eq_zero_or_pos (D / W) with hq | hq
    · exfalso
      have hqr := Nat.div_add_mod D W
      rw [hq, hr, Nat.mul_zero] at hqr
      omega
    · exact hq
  · rw [increment, if_pos (by simpa using hr)]
    exact Nat.le_add_left 1 (D / W)

/-- The shares emitted by the distribution loop concatenate to the slice of
the work list the loop walked over. -/
theorem distributeLoop_flatten (work_list : List String) (inc : Nat)
    (hinc : 1 ≤ inc) (keys : List Nat) (index : Nat) :
    ((distributeLoop work_list inc keys index).map (·.2)).flatten
      = (work_list.drop index).take (keys.length * inc) := by
  induction keys generalizing index with
  | nil => simp [distributeLoop]
  | cons key rest ih =>
    by_cases h : (work_list.drop index).take inc = []
    · have hdrop : work_list.drop index = [] := by
        cases hd : work_list.drop index with
        | nil => rfl
        | cons a l =>
          rw [hd] at h
          cases inc with
          | zero => omega
          | succ n => simp [List.take_cons] at h
      rw [distributeLoop, if_pos h, ih index, hdrop]
      simp
    · rw [distributeLoop, if_neg h, List.map_cons, List.flatten_cons,
        ih (index + inc), List.length_cons, Nat.succ_mul, Nat.add_comm (rest.length * inc) inc,
        ← List.drop_drop, ← List.take_add]

/-- Every share emitted by the distribution loop is a non-empty slice of at
most `inc` directories. -/
theorem distributeLoop_share_bounds (work_list : List String) (inc : Nat)
    (keys : List Nat) (index : Nat) :
    ∀ p ∈ distributeLoop work_list inc keys index, p.2 ≠ [] ∧ p.2.length ≤ inc := by
  induction keys generalizing index with
  | nil => simp [distributeLoop]
  | cons key rest ih =>
    intro p hp
    by_cases h : (work_list.drop index).take inc = []
    · rw [distributeLoop, if_pos h] at hp
      exact ih index p hp
    · rw [distributeLoop, if_neg h, List.mem_cons] at hp
      rcases hp with rfl | hp
      · exact ⟨h, by simp [List.length_take]⟩
      · exact ih (index + inc) p hp

/-- The receivers of the distribution loop are, in order, a subsequence of
the wanting workers. -/
theorem distributeLoop_keys_sublist (work_list : List String) (inc : Nat)
    (keys : List Nat) (index : Nat) :
    ((distributeLoop work_list inc keys index).map (·.1)).Sublist keys := by
  induction keys generalizing index with
  | nil => simp [distributeLoop]
  | cons key rest ih =>
    by_cases h : (work_list.drop index).take inc = []
    · rw [distributeLoop, if_pos h]
      exact (ih index).cons key
    · rw [distributeLoop, if_neg h, List.map_cons]
      exact (ih (index + inc)).cons₂ key

/-- The solicitation loop only re-stamps `sent_data`: the keys and the
`want_data` values of the table are unchanged. -/
theorem solicitLoop_preserves_want (now rwi : ℚ) (targets : List Nat)
    (cs : List (Nat × ClientRec)) :
    ((solicitLoop now rwi targets cs).2.map (fun p => (p.1, p.2.want_data)))
      = cs.map (fun p => (p.1, p.2.want_data)) := by
  induction targets generalizing cs with
  | nil => rfl
  | cons key rest ih =>
    rw [solicitLoop]
    cases hf : cs.find? (fun p => p.1 = key) with
    | none => exact ih cs
    | some p =>
      by_cases hc : now - p.2.sent_data > rwi
      · simp only [if_pos hc]
        rw [ih, List.map_map]
        apply List.map_congr_left
        intro q _
        by_cases hq : q.1 = key <;> simp [hq, Function.comp]
      · simp only [if_neg hc]
        exact ih cs

/-- C1: The coordinator sends client_quit only in an iteration in which
every tracked worker's status is idle or stopped and the global work list
is empty (the serve loop compares the count of idle-or-stopped workers
against the table size), and in that case it sends client_quit exactly to
the tracked workers whose status is not stopped, skipping the distribution
and solicitation steps. -/
theorem C1_quit_broadcast (cs : List (Nat × ClientRec)) (wl : List String)
    (now rwi : ℚ) :
    ((serveLoopTail cs wl now rwi).quitSent ≠ [] →
      wl = [] ∧ ∀ p ∈ cs, p.2.status = ClientStatus.idle
        ∨ p.2.status = ClientStatus.stopped)
    ∧ ((wl = [] ∧ ∀ p ∈ cs, p.2.status = ClientStatus.idle
          ∨ p.2.status = ClientStatus.stopped) →
        (serveLoopTail cs wl now rwi).quitSent =
            (cs.filter (fun p => p.2.status ≠ ClientStatus.stopped)).map (·.1)
          ∧ (serveLoopTail cs wl now rwi).workSent = []
          ∧ (serveLoopTail cs wl now rwi).solicited = []) := by
  by_cases hcond : idleClients cs = cs.length ∧ wl = []
  · constructor
    · intro _
      exact ⟨hcond.2, (idleClients_eq_length_iff cs).mp hcond.1⟩
    · intro _
      rw [serveLoopTail, if_pos hcond]
      exact ⟨rfl, rfl, rfl⟩
  · constructor
    · intro hq
      exfalso
      apply hq
      rw [serveLoopTail, if_neg hcond]
    · intro h
      exact absurd ⟨(idleClients_eq_length_iff cs).mpr h.2, h.1⟩ hcond

/-- An idle worker record awaiting work (want_data stamped at time 3). -/
def idleRec : ClientRec :=
  { id := 1, dir_count := 0, sent_data := 0, stats := [], stats_time := none,
    status := .idle, want_data := 3 }

/-- A stopped worker record. -/
def stoppedRec : ClientRec :=
  { id := 2, dir_count := 0, sent_data := 0, stats := [], stats_time := none,
    status := .stopped, want_data := 0 }

/-- A running worker record that has requested work (want_data stamped at
time 3). -/
def runningWantRec : ClientRec :=
  { id := 3, dir_count := 0, sent_data := 0, stats := [], stats_time := none,
    status := .running, want_data := 3 }

/-- A three-worker table in which every worker wants work. -/
def exampleClients : List (Nat × ClientRec) :=
  [(0, runningWantRec), (1, runningWantRec), (2, runningWantRec)]

/-- A seven-directory global work list. -/
def exampleWorkList : List String :=
  ["d1", "d2", "d3", "d4", "d5", "d6", "d7"]

/-- Witness for C1 at a concrete table: with one idle and one stopped
worker and an empty work list, quit goes exactly to the idle (non-stopped)
worker and no work or solicitation is sent. -/
theorem C1_quit_broadcast_witness :
    (serveLoopTail [(0, idleRec), (1, stoppedRec)] [] 10 5).quitSent = [0]
    ∧ (serveLoopTail [(0, idleRec), (1, stoppedRec)] [] 10 5).workSent = []
    ∧ (serveLoopTail [(0, idleRec), (1, stoppedRec)] [] 10 5).solicited = [] := by
  have h := (C1_quit_broadcast [(0, idleRec), (1, stoppedRec)] [] 10 5).2
    ⟨rfl, by decide⟩
  refine ⟨?_, h.2.1, h.2.2⟩
  rw [h.1]
  rfl

/-- C2 counterexample: with W = 3 wanting workers and D = 7 ≥ W
directories, the serve loop hands out fixed slices of ⌈7/3⌉ = 3, so the
third wanting worker receives only 1 directory, below ⌊7/3⌋ = 2 — the
claimed lower bound fails. -/
theorem C2_counterexample :
    (wantWorkClients exampleClients).length = 3
    ∧ exampleWorkList.length = 7
    ∧ (serveLoopTail exampleClients exampleWorkList 10 5).workSent =
        [(0, ["d1", "d2", "d3"]), (1, ["d4", "d5", "d6"]), (2, ["d7"])]
    ∧ ¬ (∀ p ∈ (serveLoopTail exampleClients exampleWorkList 10 5).workSent,
          7 / 3 ≤ p.2.length ∧ p.2.length ≤ (7 + 3 - 1) / 3) := by
  refine ⟨rfl, rfl, by decide, ?_⟩
  intro h
  have h1 := (h (2, ["d7"]) (by decide)).1
  simp at h1

/-- In the distribution case the serve-loop tail sends the slices cut by
the distribution loop. -/
theorem serveLoopTail_workSent_dist (cs : List (Nat × ClientRec))
    (wl : List String) (now rwi : ℚ)
    (hterm : ¬ (idleClients cs = cs.length ∧ wl = []))
    (hdist : wantWorkClients cs ≠ [] ∧ wl ≠ []) :
    (serveLoopTail cs wl now rwi).workSent =
      distributeLoop wl (increment wl.length (wantWorkClients cs).length)
        (wantWorkClients cs) 0 := by
  rw [serveLoopTail, if_neg hterm]
  simp only [if_pos hdist]

/-- In the distribution case the serve-loop tail clears the work list. -/
theorem serveLoopTail_work_list_dist (cs : List (Nat × ClientRec))
    (wl : List String) (now rwi : ℚ)
    (hterm : ¬ (idleClients cs = cs.length ∧ wl = []))
    (hdist : wantWorkClients cs ≠ [] ∧ wl ≠ []) :
    (serveLoopTail cs wl now rwi).work_list = [] := by
  rw [serveLoopTail, if_neg hterm]
  simp only [if_pos hdist]

/-- Outside both the termination case and the distribution case no work is
sent. -/
theorem serveLoopTail_workSent_empty (cs : List (Nat × ClientRec))
    (wl : List String) (now rwi : ℚ)
    (hdist : ¬ (wantWorkClients cs ≠ [] ∧ wl ≠ [])) :
    (serveLoopTail cs wl now rwi).workSent = [] := by
  rw [serveLoopTail]
  by_cases hcond : idleClients cs = cs.length ∧ wl = []
  · simp only [if_pos hcond]
  · rw [if_neg hcond]
    simp only [if_neg hdist]

/-- C2 (amended): in any distribution round, every share sent to a wanting
worker is non-empty and holds at most ⌈D/W⌉ directories (where D is the
work-list length and W the number of wanting workers, and the ceiling is
`(D + W - 1) / W`); shares of exactly ⌈D/W⌉ are cut in worker order until
the list runs out, so a late wanting worker may receive fewer than ⌊D/W⌋
directories or none at all. -/
theorem C2_distribution_share_bound (cs : List (Nat × ClientRec))
    (wl : List String) (now rwi : ℚ) :
    ∀ p ∈ (serveLoopTail cs wl now rwi).workSent,
      p.2 ≠ [] ∧ p.2.length ≤
        (wl.length + (wantWorkClients cs).length - 1) / (wantWorkClients cs).length := by
  intro p hp
  by_cases hdist : wantWorkClients cs ≠ [] ∧ wl ≠ []
  · by_cases hcond : idleClients cs = cs.length ∧ wl = []
    · rw [serveLoopTail, if_pos hcond] at hp
      simp at hp
    · rw [serveLoopTail_workSent_dist cs wl now rwi hcond hdist] at hp
      have hW : 1 ≤ (wantWorkClients cs).length := List.length_pos.mpr hdist.1
      have hb := distributeLoop_share_bounds wl
        (increment wl.length (wantWorkClients cs).length) (wantWorkClients cs) 0 p hp
      refine ⟨hb.1, ?_⟩
      rw [← increment_eq_ceil wl.length (wantWorkClients cs).length hW]
      exact hb.2
  · rw [serveLoopTail_workSent_empty cs wl now rwi hdist] at hp
    simp at hp

/-- Witness for C2 (amended) at the concrete three-worker round: the last
share is non-empty and within the ceiling bound. -/
theorem C2_distribution_share_bound_witness :
    (["d7"] : List String) ≠ []
    ∧ (["d7"] : List String).length ≤
        (exampleWorkList.length + (wantWorkClients exampleClients).length - 1)
          / (wantWorkClients exampleClients).length :=
  C2_distribution_share_bound exampleClients exampleWorkList 10 5
    (2, ["d7"]) (by decide)

/-- In the distribution case, the (key, want_data) pairs of the resulting
table come from the input table with want_data zeroed exactly on the keys
that received a share (the solicitation step only re-stamps sent_data). -/
theorem serveLoopTail_want_pairs (cs : List (Nat × ClientRec))
    (wl : List String) (now rwi : ℚ)
    (hterm : ¬ (idleClients cs = cs.length ∧ wl = []))
    (hdist : wantWorkClients cs ≠ [] ∧ wl ≠ []) :
    (serveLoopTail cs wl now rwi).client_state.map (fun p => (p.1, p.2.want_data))
      = cs.map (fun p =>
          if ((distributeLoop wl
                (increment wl.length (wantWorkClients cs).length)
                (wantWorkClients cs) 0).map (·.1)).contains p.1
          then (p.1, (0 : ℚ)) else (p.1, p.2.want_data)) := by
  rw [serveLoopTail, if_neg hterm]
  simp only [if_pos hdist]
  have hcs₁ : ∀ got : List Nat,
      ((cs.map (fun p => if got.contains p.1
          then (p.1, { p.2 with want_data := (0 : ℚ) }) else p)).map
        (fun p => (p.1, p.2.want_data)))
      = cs.map (fun p => if got.contains p.1
          then (p.1, (0 : ℚ)) else (p.1, p.2.want_data)) := by
    intro got
    rw [List.map_map]
    apply List.map_congr_left
    intro p _
    by_cases hc : p.1 ∈ got <;> simp [hc, Function.comp]
  by_cases hsol : ((wantWorkClients cs).filter (fun k =>
      ¬ ((distributeLoop wl (increment wl.length (wantWorkClients cs).length)
        (wantWorkClients cs) 0).map (·.1)).contains k)) ≠ []
      ∧ haveDirsClients cs ≠ []
  · simp only [if_pos hsol]
    rw [solicitLoop_preserves_want]
    exact hcs₁ _
  · simp only [if_neg hsol]
    exact hcs₁ _

/-- C3: When the distribution step runs (the termination condition fails,
some worker wants work and the global list is non-empty), the shares sent
concatenate to exactly the prior global work list — no directory lost or
duplicated — the global list is cleared, the receivers are distinct
wanting workers, every share is non-empty, and want_data is cleared to 0
for every worker that received a share. -/
theorem C3_distribution_conservation (cs : List (Nat × ClientRec))
    (wl : List String) (now rwi : ℚ)
    (hterm : ¬ (idleClients cs = cs.length ∧ wl = []))
    (hwant : wantWorkClients cs ≠ []) (hwl : wl ≠ [])
    (hkeys : (cs.map (·.1)).Nodup) :
    (((serveLoopTail cs wl now rwi).workSent.map (·.2)).flatten = wl)
    ∧ (serveLoopTail cs wl now rwi).work_list = []
    ∧ ((serveLoopTail cs wl now rwi).workSent.map (·.1)).Sublist (wantWorkClients cs)
    ∧ ((serveLoopTail cs wl now rwi).workSent.map (·.1)).Nodup
    ∧ (∀ p ∈ (serveLoopTail cs wl now rwi).workSent, p.2 ≠ [])
    ∧ (∀ q ∈ (serveLoopTail cs wl now rwi).client_state,
        q.1 ∈ (serveLoopTail cs wl now rwi).workSent.map (·.1) →
        q.2.want_data = 0) := by
  have hdist : wantWorkClients cs ≠ [] ∧ wl ≠ [] := ⟨hwant, hwl⟩
  have hD : 1 ≤ wl.length := List.length_pos.mpr hwl
  have hW : 1 ≤ (wantWorkClients cs).length := List.length_pos.mpr hwant
  have hinc : 1 ≤ increment wl.length (wantWorkClients cs).length :=
    one_le_increment wl.length (wantWorkClients cs).length hD
  have hwantnd : (wantWorkClients cs).Nodup := by
    rw [wantWorkClients]
    exact hkeys.sublist ((List.filter_sublist cs).map (·.1))
  have hws := serveLoopTail_workSent_dist cs wl now rwi hterm hdist
  refine ⟨?_, serveLoopTail_work_list_dist cs wl now rwi hterm hdist, ?_, ?_, ?_, ?_⟩
  · rw [hws, distributeLoop_flatten wl _ hinc (wantWorkClients cs) 0, List.drop_zero]
    exact List.take_of_length_le
      (le_mul_increment wl.length (wantWorkClients cs).length hW)
  · rw [hws]
    exact distributeLoop_keys_sublist wl _ (wantWorkClients cs) 0
  · rw [hws]
    exact hwantnd.sublist (distributeLoop_keys_sublist wl _ (wantWorkClients cs) 0)
  · rw [hws]
    intro p hp
    exact (distributeLoop_share_bounds wl _ (wantWorkClients cs) 0 p hp).1
  · intro q hq hqkey
    rw [hws] at hqkey
    have hpair : (q.1, q.2.want_data) ∈
        (serveLoopTail cs wl now rwi).client_state.map
          (fun p => (p.1, p.2.want_data)) :=
      List.mem_map_of_mem (fun p => (p.1, p.2.want_data)) hq
    rw [serveLoopTail_want_pairs cs wl now rwi hterm hdist] at hpair
    obtain ⟨p, hp, hpe⟩ := List.mem_map.mp hpair
    by_cases hc : ((distributeLoop wl
        (increment wl.length (wantWorkClients cs).length)
        (wantWorkClients cs) 0).map (·.1)).contains p.1
    · rw [if_pos hc] at hpe
      exact ((Prod.ext_iff.mp hpe).2).symm
    · rw [if_neg hc] at hpe
      have h1 : p.1 = q.1 := (Prod.ext_iff.mp hpe).1
      rw [h1] at hc
      exact absurd (List.elem_iff.mpr hqkey) hc

/-- Witness for C3 at the concrete three-worker round: the shares
concatenate to the full seven-directory list, the list is cleared, the
receivers are the distinct wanting workers, and want_data is cleared for a
receiving worker. -/
theorem C3_distribution_conservation_witness :
    (((serveLoopTail exampleClients exampleWorkList 10 5).workSent.map
        (·.2)).flatten = exampleWorkList)
    ∧ (serveLoopTail exampleClients exampleWorkList 10 5).work_list = [] := by
  have h := C3_distribution_conservation exampleClients exampleWorkList 10 5
    (by decide) (by decide) (by decide) (by decide)
  exact ⟨h.1, h.2.1⟩

end PsScan
